import Mathlib

/-!
Verification of the load-balancer core from `src/lb/main.go`
(package `main` of the `lb` component).

The Go code is shallowly embedded:

* `Backend` mirrors the mutable state of the Go `Backend` struct
  (`Alive`, `ConsecFailures`); locks are dropped because the embedding is
  a sequential interleaving model of the individual critical sections.
* `setAlive` embeds `(*Backend).SetAlive`.
* `nextAliveBackend` embeds `(*LoadBalancer).nextAliveBackend`: the Go
  `for i := 0; i < n; i++` scan is written with explicit fuel `n`.
* `noteFailure` embeds `(*LoadBalancer).noteFailure`; the returned `Bool`
  records whether the body spawned the cooldown goroutine
  (`go func(be *Backend) { ... }`), and `cooldownFire` embeds that
  goroutine's body (what happens when the cooldown timer fires).
* `check` embeds the health-probe handler `(*LoadBalancer).check`, with
  the network outcome of `client.Get` abstracted into `ProbeResult`.
* `serveHTTP` embeds the request loop of `(*LoadBalancer).ServeHTTP`;
  the upstream behaviour of `b.ReverseProxy.ServeHTTP(rec, r2)` is
  abstracted into an oracle mapping the chosen backend index to an
  `Outcome`.  Data written through the (write-through) `statusRecorder`
  to the client connection is accumulated in `ServeState.output`.
-/

/-- Mutable state of the Go `Backend` struct: the `Alive` flag and the
`ConsecFailures` counter.  `name` stands for the `Name` field. -/
structure Backend where
  name : String
  alive : Bool
  consecFailures : Nat
  deriving Repr, DecidableEq

/-- Embedding of `(*Backend).SetAlive`: store the flag and, when it is
`true`, reset `ConsecFailures` to 0. -/
def setAlive (b : Backend) (a : Bool) : Backend :=
  { b with
    alive := a
    consecFailures := if a then 0 else b.consecFailures }

/-- Embedding of `(*Backend).IsAlive`. -/
def isAlive (b : Backend) : Bool :=
  b.alive

/-- The part of the Go `LoadBalancer` struct the selection, breaker and
dispatch logic read: the backend slice, the rotation cursor `current`,
and the policy fields `MaxConsecFail` and `MaxRetries`. -/
structure LoadBalancer where
  backends : List Backend
  current : Nat
  maxConsecFail : Nat
  maxRetries : Nat
  deriving Repr, DecidableEq

/-- The scan loop inside `nextAliveBackend`: Go's
`for i := 0; i < n; i++ { lb.current = (lb.current+1) % n; ... }`,
with the iteration count made an explicit fuel argument.  Returns the
selected `(backend, index)` (or `none` for the `no alive backends`
error) together with the final value of the mutated cursor. -/
def nextAliveAux (bs : List Backend) (cur : Nat) : Nat → Option (Backend × Nat) × Nat
  | 0 => (none, cur)
  | fuel + 1 =>
    match bs.get? ((cur + 1) % bs.length) with
    | some b =>
      if isAlive b then (some (b, (cur + 1) % bs.length), (cur + 1) % bs.length)
      else nextAliveAux bs ((cur + 1) % bs.length) fuel
    | none => (none, (cur + 1) % bs.length)

/-- Embedding of `(*LoadBalancer).nextAliveBackend`: scan at most
`len(lb.Backends)` positions starting one past the cursor. -/
def nextAliveBackend (lb : LoadBalancer) : Option (Backend × Nat) × LoadBalancer :=
  let r := nextAliveAux lb.backends lb.current lb.backends.length
  (r.1, { lb with current := r.2 })

/-- Embedding of `(*LoadBalancer).noteFailure`: increment
`ConsecFailures`; if the new value reaches `MaxConsecFail` while the
backend is still alive, mark it dead.  The `Bool` records whether the
cooldown goroutine was spawned in that branch. -/
def noteFailure (maxConsecFail : Nat) (b : Backend) : Backend × Bool :=
  let b1 := { b with consecFailures := b.consecFailures + 1 }
  if maxConsecFail ≤ b1.consecFailures ∧ b1.alive then
    ({ b1 with alive := false }, true)
  else
    (b1, false)

/-- Body of the cooldown goroutine spawned by `noteFailure`: after the
sleep it unconditionally sets `Alive = true` and `ConsecFailures = 0`. -/
def cooldownFire (b : Backend) : Backend :=
  { b with alive := true, consecFailures := 0 }

/-- Network outcome of the health probe `client.Get(...)` in
`(*LoadBalancer).check`: either a transport error (connection failure or
timeout, Go's `err != nil`) or a response with a status code. -/
inductive ProbeResult where
  | err : ProbeResult
  | status : Nat → ProbeResult
  deriving Repr, DecidableEq

/-- Embedding of `(*LoadBalancer).check`: on `err != nil || resp.StatusCode != 200`
call `SetAlive(false)`, otherwise `SetAlive(true)`. -/
def check (b : Backend) (r : ProbeResult) : Backend :=
  match r with
  | .err => setAlive b false
  | .status code => if code ≠ 200 then setAlive b false else setAlive b true

/-- One backend-state mutation by any of the three actors that touch a
backend: a dispatch failure report (`noteFailure`), a health-probe
outcome (`check`), or the firing of a breaker cooldown timer. -/
inductive BackendOp where
  | dispatchFailure : BackendOp
  | probe : ProbeResult → BackendOp
  | cooldown : BackendOp
  deriving Repr, DecidableEq

/-- Apply one `BackendOp` to a backend (threshold `m` is the pool's
`MaxConsecFail`). -/
def applyOp (m : Nat) (op : BackendOp) (b : Backend) : Backend :=
  match op with
  | .dispatchFailure => (noteFailure m b).1
  | .probe r => check b r
  | .cooldown => cooldownFire b

/-- An op re-admits a backend when it is a cooldown expiry or a
successful (status 200) health probe: exactly the two code paths that
can write `Alive = true`. -/
def isReadmitOp : BackendOp → Bool
  | .cooldown => true
  | .probe (.status 200) => true
  | _ => false

/-- Apply a sequence of ops, oldest first. -/
def applyOps (m : Nat) (ops : List BackendOp) (b : Backend) : Backend :=
  match ops with
  | [] => b
  | op :: rest => applyOps m rest (applyOp m op b)

/-- `noteFailure` iterated `k` times; the second component counts how
many of the calls spawned a cooldown goroutine. -/
def noteFailureTimes (m : Nat) (b : Backend) : Nat → Backend × Nat
  | 0 => (b, 0)
  | k + 1 =>
    let p := noteFailureTimes m b k
    let q := noteFailure m p.1
    (q.1, p.2 + (if q.2 then 1 else 0))

/-- A response as committed to the client connection: status code and
body. -/
structure Response where
  status : Nat
  body : String
  deriving Repr, DecidableEq

/-- Outcome of one forwarding attempt
`b.ReverseProxy.ServeHTTP(rec, r2)` under its per-attempt context:
either the deadline is exceeded (`ctx.Err() == context.DeadlineExceeded`)
or the upstream's response is written through the recorder. -/
inductive Outcome where
  | timeout : Outcome
  | response : Response → Outcome
  deriving Repr, DecidableEq

/-- State threaded through the `ServeHTTP` attempt loop.  `output` is
the data committed to the client connection, in order (`statusRecorder`
writes through to the underlying `ResponseWriter`); `attempts` lists the
backend indices actually forwarded to, in order; `tried` is the Go
`tried` map; `recCode` is `rec.code`; `lastErrSet` records
`lastErr != nil`; `iters` counts executed loop iterations and `skips`
counts iterations that hit the `tried[idx]` `continue`. -/
structure ServeState where
  lb : LoadBalancer
  tried : List Nat
  output : List Response
  attempts : List Nat
  recCode : Nat
  lastErrSet : Bool
  iters : Nat
  skips : Nat
  deriving Repr, DecidableEq

/-- Report a dispatch failure against backend `idx` of the pool
(`lb.noteFailure(b)` acting through the shared pointer). -/
def poolNoteFailure (lb : LoadBalancer) (idx : Nat) : LoadBalancer :=
  { lb with
    backends := lb.backends.modify (fun b => (noteFailure lb.maxConsecFail b).1) idx }

/-- The `for attempt := 0; attempt <= lb.MaxRetries; attempt++` loop of
`ServeHTTP`.  `fuel` is the number of loop iterations still allowed
(Go's `continue` runs `attempt++`, so every iteration, including a
`tried[idx]` skip, consumes fuel).  `oracle idx` is the outcome of
forwarding to backend `idx`. -/
def serveLoop (oracle : Nat → Outcome) : Nat → ServeState → ServeState
  | 0, s => s
  | fuel + 1, s =>
    let sel := nextAliveBackend s.lb
    match sel.1 with
    | none => { s with lb := sel.2, lastErrSet := true, iters := s.iters + 1 }
    | some (_, idx) =>
      if idx ∈ s.tried then
        serveLoop oracle fuel
          { s with lb := sel.2, iters := s.iters + 1, skips := s.skips + 1 }
      else
        let s1 : ServeState :=
          { s with
            lb := sel.2
            tried := idx :: s.tried
            attempts := s.attempts ++ [idx]
            iters := s.iters + 1 }
        match oracle idx with
        | .timeout =>
          serveLoop oracle fuel { s1 with lb := poolNoteFailure s1.lb idx }
        | .response r =>
          let s2 := { s1 with output := s1.output ++ [r], recCode := r.status }
          if 500 ≤ r.status then
            serveLoop oracle fuel { s2 with lb := poolNoteFailure s2.lb idx }
          else
            s2

/-- Embedding of `(*LoadBalancer).ServeHTTP`: run the attempt loop with
budget `MaxRetries + 1`; afterwards, if `lastErr != nil`, `http.Error`
writes the 503 `no upstream available` response to the client. -/
def serveHTTP (oracle : Nat → Outcome) (lb : LoadBalancer) : ServeState :=
  let s := serveLoop oracle (lb.maxRetries + 1)
    { lb := lb, tried := [], output := [], attempts := [], recCode := 200
      lastErrSet := false, iters := 0, skips := 0 }
  if s.lastErrSet then
    { s with output := s.output ++ [⟨503, "no upstream available"⟩] }
  else
    s

/-- Sequence of backend indices returned by repeated calls to
`nextAliveBackend` (the pool state, in particular the cursor, is
threaded from call to call; failed selections contribute nothing). -/
def selTrace : Nat → LoadBalancer → List Nat
  | 0, _ => []
  | k + 1, lb =>
    match nextAliveBackend lb with
    | (some (_, i), lb1) => i :: selTrace k lb1
    | (none, lb1) => selTrace k lb1

/-- Whether applying `op` to `b` spawns a breaker cooldown goroutine:
only the threshold branch of `noteFailure` contains `go func ...`; the
health-probe path (`check`/`SetAlive`) and the cooldown body contain no
timer code. -/
def opSchedules (m : Nat) (op : BackendOp) (b : Backend) : Bool :=
  match op with
  | .dispatchFailure => (noteFailure m b).2
  | .probe _ => false
  | .cooldown => false

/-- The data a single forwarding attempt at backend `i` commits through
the write-through recorder: the upstream response, or nothing on a
deadline-exceeded attempt. -/
def attemptWrites (oracle : Nat → Outcome) (i : Nat) : Option Response :=
  match oracle i with
  | .timeout => none
  | .response r => some r

/-- A freshly constructed backend (`Alive: true`, zero failures). -/
def bFresh : Backend := ⟨"f", true, 0⟩

/-- A backend already marked down with two recorded failures. -/
def bDown : Backend := ⟨"d", false, 2⟩

/-- Three alive backends with the default policy
(`MaxConsecFail = 3`, `MaxRetries = 2`), cursor at 0. -/
def lbW : LoadBalancer :=
  ⟨[⟨"w0", true, 0⟩, ⟨"w1", true, 0⟩, ⟨"w2", true, 0⟩], 0, 3, 2⟩

/-- A pool in full outage: every backend is marked not-alive. -/
def lbOutage : LoadBalancer :=
  ⟨[⟨"o0", false, 2⟩, ⟨"o1", false, 0⟩], 0, 3, 2⟩

/-- Two alive backends, threshold high enough that dispatch failures in
one request never trip the breaker, retry budget `2 + 1 = 3`. -/
def lbSkip : LoadBalancer :=
  ⟨[⟨"s0", true, 0⟩, ⟨"s1", true, 0⟩], 0, 10, 2⟩

/-- Two alive backends with retry budget `1 + 1 = 2`. -/
def lbStream : LoadBalancer :=
  ⟨[⟨"r0", true, 0⟩, ⟨"r1", true, 0⟩], 0, 10, 1⟩

/-- Upstream behaviour: every backend answers 500. -/
def oracle500 : Nat → Outcome := fun _ => .response ⟨500, "boom"⟩

/-- Upstream behaviour: backend 1 answers 500, every other backend 200. -/
def oracleMix : Nat → Outcome :=
  fun i => if i = 1 then .response ⟨500, "err1"⟩ else .response ⟨200, "ok"⟩

/-- Upstream behaviour: every attempt times out. -/
def oracleDead : Nat → Outcome := fun _ => .timeout

/-- Among any `n` consecutive offsets there is one hitting a given
residue: used to show a full scan cycle visits every pool index. -/
theorem exists_offset_mod (n a i : Nat) (hn : 0 < n) (hi : i < n) :
    ∃ t, t < n ∧ (a + t) % n = i := by
  refine ⟨(i + n - a % n) % n, Nat.mod_lt _ hn, ?_⟩
  have ha : a % n < n := Nat.mod_lt _ hn
  have key : a % n + (i + n - a % n) = i + n := by omega
  calc (a + (i + n - a % n) % n) % n
      = ((i + n - a % n) % n + a) % n := by rw [Nat.add_comm]
    _ = ((i + n - a % n) + a) % n := Nat.mod_add_mod _ n a
    _ = (a % n + (i + n - a % n)) % n := by
        rw [Nat.add_comm, ← Nat.mod_add_mod]
    _ = (i + n) % n := by rw [key]
    _ = i % n := Nat.add_mod_right i n
    _ = i := Nat.mod_eq_of_lt hi

/-- Shifting by a fixed amount is injective modulo `n` on `[0, n)`. -/
theorem add_mod_inj (n a t u : Nat) (ht : t < n) (hu : u < n)
    (h : (a + t) % n = (a + u) % n) : t = u := by
  have h2 : t % n = u % n := Nat.ModEq.add_left_cancel' a h
  rwa [Nat.mod_eq_of_lt ht, Nat.mod_eq_of_lt hu] at h2

/-- A successful scan returns a backend of the pool, at its own index,
with its alive flag set; the cursor is left at that index. -/
theorem nextAliveAux_some (bs : List Backend) :
    ∀ fuel cur b i, (nextAliveAux bs cur fuel).1 = some (b, i) →
      bs.get? i = some b ∧ b.alive = true ∧ (nextAliveAux bs cur fuel).2 = i := by
  intro fuel
  induction fuel with
  | zero => intro cur b i h; simp [nextAliveAux] at h
  | succ f ih =>
    intro cur b i h
    rw [nextAliveAux] at h ⊢
    cases hg : bs.get? ((cur + 1) % bs.length) with
    | none => rw [hg] at h; simp at h
    | some b0 =>
      rw [hg] at h
      dsimp only at h ⊢
      by_cases hb : isAlive b0
      · rw [if_pos hb] at h ⊢
        simp at h
        obtain ⟨hb0, hi⟩ := h
        subst hb0; subst hi
        exact ⟨hg, hb, rfl⟩
      · rw [if_neg hb] at h ⊢
        exact ih _ b i h

/-- When no backend in the pool is alive, the scan fails for every
fuel and cursor value. -/
theorem nextAliveAux_none_of_dead (bs : List Backend)
    (h : ∀ b ∈ bs, b.alive = false) :
    ∀ fuel cur, (nextAliveAux bs cur fuel).1 = none := by
  intro fuel
  induction fuel with
  | zero => intro cur; simp [nextAliveAux]
  | succ f ih =>
    intro cur
    rw [nextAliveAux]
    cases hg : bs.get? ((cur + 1) % bs.length) with
    | none => simp
    | some b0 =>
      have hmem : b0 ∈ bs := List.get?_mem hg
      have hdead : isAlive b0 = false := h b0 hmem
      dsimp only
      rw [if_neg (by simp [hdead])]
      exact ih _

/-- A failed scan means every probed position held a dead backend: the
scan with fuel `f` starting one past cursor `cur` probes exactly the
positions `(cur + 1 + t) % n` for `t < f`. -/
theorem nextAliveAux_none_imp (bs : List Backend) :
    ∀ fuel cur, (nextAliveAux bs cur fuel).1 = none →
      ∀ t, t < fuel → ∀ b, bs.get? ((cur + 1 + t) % bs.length) = some b →
        b.alive = false := by
  intro fuel
  induction fuel with
  | zero => intro cur _ t ht; omega
  | succ f ih =>
    intro cur h t ht b hb
    rw [nextAliveAux] at h
    cases hg : bs.get? ((cur + 1) % bs.length) with
    | none =>
      have hlen : bs.length ≤ (cur + 1) % bs.length := List.get?_eq_none.mp hg
      have hzero : bs.length = 0 := by
        rcases Nat.eq_zero_or_pos bs.length with h0 | hpos
        · exact h0
        · exact absurd (Nat.mod_lt (cur + 1) hpos) (by omega)
      rw [List.length_eq_zero.mp hzero] at hb
      simp at hb
    | some b0 =>
      rw [hg] at h
      dsimp only at h
      by_cases hb0 : isAlive b0
      · rw [if_pos hb0] at h; simp at h
      · rw [if_neg hb0] at h
        cases t with
        | zero =>
          have hbb : b = b0 := by
            rw [Nat.add_zero, hg] at hb
            exact (Option.some_inj.mp hb).symm
          rw [hbb]
          simpa [isAlive] using hb0
        | succ u =>
          have harith : ((cur + 1) % bs.length + 1 + u) % bs.length
              = (cur + 1 + (u + 1)) % bs.length := by
            calc ((cur + 1) % bs.length + 1 + u) % bs.length
                = ((cur + 1) % bs.length + (1 + u)) % bs.length := by
                  rw [Nat.add_assoc]
              _ = ((cur + 1) + (1 + u)) % bs.length := Nat.mod_add_mod _ _ _
              _ = (cur + 1 + (u + 1)) % bs.length :=
                  congrArg (fun x => x % bs.length)
                    (by omega : (cur + 1) + (1 + u) = cur + 1 + (u + 1))
          exact ih _ h u (by omega) b (by rw [harith]; exact hb)

/-- The index returned by a successful scan is the first alive position
in circular order starting one past the cursor: it sits at offset `t`
(position `(cur + 1 + t) % n`) for some `t` below the fuel, and every
earlier offset holds a dead backend. -/
theorem nextAliveAux_first (bs : List Backend) :
    ∀ fuel cur b i, (nextAliveAux bs cur fuel).1 = some (b, i) →
      ∃ t, t < fuel ∧ i = (cur + 1 + t) % bs.length ∧
        ∀ u, u < t → ∀ c, bs.get? ((cur + 1 + u) % bs.length) = some c →
          c.alive = false := by
  intro fuel
  induction fuel with
  | zero => intro cur b i h; simp [nextAliveAux] at h
  | succ f ih =>
    intro cur b i h
    rw [nextAliveAux] at h
    cases hg : bs.get? ((cur + 1) % bs.length) with
    | none => rw [hg] at h; simp at h
    | some b0 =>
      rw [hg] at h
      dsimp only at h
      by_cases hb : isAlive b0
      · rw [if_pos hb] at h
        simp at h
        refine ⟨0, by omega, ?_, ?_⟩
        · rw [Nat.add_zero]; exact h.2.symm
        · intro u hu; omega
      · rw [if_neg hb] at h
        obtain ⟨t, htf, hti, hmin⟩ := ih _ b i h
        refine ⟨t + 1, by omega, ?_, ?_⟩
        · rw [hti]
          calc ((cur + 1) % bs.length + 1 + t) % bs.length
              = ((cur + 1) % bs.length + (1 + t)) % bs.length := by
                rw [Nat.add_assoc]
            _ = ((cur + 1) + (1 + t)) % bs.length := Nat.mod_add_mod _ _ _
            _ = (cur + 1 + (t + 1)) % bs.length :=
                congrArg (fun x => x % bs.length)
                  (by omega : (cur + 1) + (1 + t) = cur + 1 + (t + 1))
        · intro u hu c hc
          cases u with
          | zero =>
            rw [Nat.add_zero, hg] at hc
            have : c = b0 := Option.some_inj.mp hc.symm
            rw [this]
            simpa [isAlive] using hb
          | succ v =>
            have harith : ((cur + 1) % bs.length + 1 + v) % bs.length
                = (cur + 1 + (v + 1)) % bs.length := by
              calc ((cur + 1) % bs.length + 1 + v) % bs.length
                  = ((cur + 1) % bs.length + (1 + v)) % bs.length := by
                    rw [Nat.add_assoc]
                _ = ((cur + 1) + (1 + v)) % bs.length := Nat.mod_add_mod _ _ _
                _ = (cur + 1 + (v + 1)) % bs.length :=
                    congrArg (fun x => x % bs.length)
                      (by omega : (cur + 1) + (1 + v) = cur + 1 + (v + 1))
            exact hmin v (by omega) c (by rw [harith]; exact hc)

/-- When every backend is alive, the scan succeeds immediately at the
position one past the cursor. -/
theorem nextAliveAux_allAlive (bs : List Backend) (fuel cur : Nat)
    (hn : 0 < bs.length) (h : ∀ b ∈ bs, b.alive = true) :
    ∃ b, bs.get? ((cur + 1) % bs.length) = some b ∧
      nextAliveAux bs cur (fuel + 1) =
        (some (b, (cur + 1) % bs.length), (cur + 1) % bs.length) := by
  have hlt : (cur + 1) % bs.length < bs.length := Nat.mod_lt _ hn
  cases hg : bs.get? ((cur + 1) % bs.length) with
  | none => exact absurd (List.get?_eq_none.mp hg) (by omega)
  | some b0 =>
    refine ⟨b0, rfl, ?_⟩
    have halive : isAlive b0 = true := h b0 (List.get?_mem hg)
    rw [nextAliveAux, hg]
    dsimp only
    rw [if_pos halive]

/-- With every backend alive, repeated selection walks the pool
cyclically: the trace of `s` selections from cursor `c` is
`[(c+1) % n, (c+2) % n, ...]`. -/
theorem selTrace_allAlive :
    ∀ s lb, 0 < lb.backends.length → (∀ b ∈ lb.backends, b.alive = true) →
      selTrace s lb =
        (List.range s).map (fun t => (lb.current + 1 + t) % lb.backends.length) := by
  intro s
  induction s with
  | zero => intro lb _ _; simp [selTrace]
  | succ k ih =>
    intro lb hn halive
    obtain ⟨f, hf⟩ : ∃ f, lb.backends.length = f + 1 :=
      ⟨lb.backends.length - 1, by omega⟩
    obtain ⟨b0, hg, hstep⟩ :=
      nextAliveAux_allAlive lb.backends f lb.current hn halive
    have hsel : nextAliveBackend lb =
        (some (b0, (lb.current + 1) % lb.backends.length),
          { lb with current := (lb.current + 1) % lb.backends.length }) := by
      rw [nextAliveBackend]
      rw [hf, ← hf] at hstep ⊢
      rw [hf] at hstep
      rw [hf, hstep]
    rw [selTrace, hsel]
    dsimp only
    rw [ih { lb with current := (lb.current + 1) % lb.backends.length }
      (by simpa using hn) (by simpa using halive)]
    rw [List.range_succ_eq_map]
    dsimp only [List.map_cons, List.map_map]
    refine List.cons_eq_cons.mpr ⟨?_, ?_⟩
    · rw [Nat.add_zero]
    · rw [List.map_map]
      refine List.map_congr_left ?_
      intro t _
      show ((lb.current + 1) % lb.backends.length + 1 + t) % lb.backends.length
          = (lb.current + 1 + Nat.succ t) % lb.backends.length
      calc ((lb.current + 1) % lb.backends.length + 1 + t) % lb.backends.length
          = ((lb.current + 1) % lb.backends.length + (1 + t)) % lb.backends.length := by
            rw [Nat.add_assoc]
        _ = ((lb.current + 1) + (1 + t)) % lb.backends.length := Nat.mod_add_mod _ _ _
        _ = (lb.current + 1 + Nat.succ t) % lb.backends.length :=
            congrArg (fun x => x % lb.backends.length)
              (by omega : (lb.current + 1) + (1 + t) = lb.current + 1 + Nat.succ t)

/-- One full cycle of the rotation visits each pool index exactly once. -/
theorem count_mod_block (n d i : Nat) (hn : 0 < n) (hi : i < n) :
    ((List.range n).map (fun t => (d + t) % n)).count i = 1 := by
  have hnodup : ((List.range n).map (fun t => (d + t) % n)).Nodup := by
    refine (List.nodup_range n).map_on ?_
    intro x hx y hy hxy
    exact add_mod_inj n d x y (List.mem_range.mp hx) (List.mem_range.mp hy) hxy
  have hmem : i ∈ (List.range n).map (fun t => (d + t) % n) := by
    obtain ⟨t, ht, hti⟩ := exists_offset_mod n d i hn hi
    exact List.mem_map.mpr ⟨t, List.mem_range.mpr ht, hti⟩
  exact List.count_eq_one_of_mem hnodup hmem

/-- Over `k` full cycles, each pool index is hit exactly `k` times. -/
theorem count_mod_cycles (n i : Nat) (hn : 0 < n) (hi : i < n) :
    ∀ k d, ((List.range (k * n)).map (fun t => (d + t) % n)).count i = k := by
  intro k
  induction k with
  | zero => intro d; simp
  | succ j ih =>
    intro d
    have hsplit : (j + 1) * n = j * n + n := Nat.succ_mul j n
    rw [hsplit, List.range_add, List.map_append, List.count_append, ih d]
    rw [List.map_map]
    have hrw : ((List.range n).map ((fun t => (d + t) % n) ∘ (fun x => j * n + x))).count i
        = ((List.range n).map (fun t => ((d + j * n) + t) % n)).count i := by
      refine congrArg (List.count i) (List.map_congr_left ?_)
      intro t _
      show (d + (j * n + t)) % n = ((d + j * n) + t) % n
      rw [Nat.add_assoc]
    rw [hrw, count_mod_block n (d + j * n) i hn hi]

/-- Claim C1: for a pool with at least one backend, `nextAliveBackend`
fails exactly when no backend is alive; on success it returns an alive
backend at its index, leaves the cursor there, and that index is the
first alive position in circular order starting one past the previous
cursor, found within pool-size steps; and with all backends alive, a
stream of `k * N` selections returns each index exactly `k` times. -/
theorem nextAlive_round_robin (lb : LoadBalancer) (hn : 0 < lb.backends.length) :
    ((nextAliveBackend lb).1 = none ↔ ∀ b ∈ lb.backends, b.alive = false)
    ∧ (∀ b i, (nextAliveBackend lb).1 = some (b, i) →
        lb.backends.get? i = some b ∧ b.alive = true ∧
        ((nextAliveBackend lb).2).current = i ∧
        ∃ t, t < lb.backends.length ∧
          i = (lb.current + 1 + t) % lb.backends.length ∧
          ∀ u, u < t → ∀ c,
            lb.backends.get? ((lb.current + 1 + u) % lb.backends.length) = some c →
              c.alive = false)
    ∧ ((∀ b ∈ lb.backends, b.alive = true) →
        ∀ k i, i < lb.backends.length →
          (selTrace (k * lb.backends.length) lb).count i = k) := by
  refine ⟨⟨?_, ?_⟩, ?_, ?_⟩
  · intro h b hb
    obtain ⟨j, hj⟩ := List.mem_iff_get?.mp hb
    have hjlt : j < lb.backends.length := (List.get?_eq_some.mp hj).1
    obtain ⟨t, ht, hti⟩ :=
      exists_offset_mod lb.backends.length (lb.current + 1) j hn hjlt
    have hnone : (nextAliveAux lb.backends lb.current lb.backends.length).1 = none := h
    exact nextAliveAux_none_imp lb.backends lb.backends.length lb.current hnone
      t ht b (by rw [hti]; exact hj)
  · intro h
    exact nextAliveAux_none_of_dead lb.backends h lb.backends.length lb.current
  · intro b i h
    have h1 := nextAliveAux_some lb.backends lb.backends.length lb.current b i h
    have h2 := nextAliveAux_first lb.backends lb.backends.length lb.current b i h
    exact ⟨h1.1, h1.2.1, h1.2.2, h2⟩
  · intro halive k i hi
    rw [selTrace_allAlive (k * lb.backends.length) lb hn halive]
    exact count_mod_cycles lb.backends.length i hn hi k (lb.current + 1)

/-- Instantiation of the round-robin claim on a concrete three-backend
pool: over two full cycles each backend is selected exactly twice. -/
theorem nextAlive_round_robin_witness :
    (selTrace (2 * lbW.backends.length) lbW).count 1 = 2 :=
  (nextAlive_round_robin lbW (by decide)).2.2 (by decide) 2 1 (by decide)

/-- `noteFailure` on a backend already marked down only increments the
counter: the guard `b.ConsecFailures >= MaxConsecFail && b.Alive` is
false, so the alive flag is not written and no goroutine is spawned. -/
theorem noteFailure_dead (m : Nat) (b : Backend) (hb : b.alive = false) :
    noteFailure m b = ({ b with consecFailures := b.consecFailures + 1 }, false) := by
  simp only [noteFailure]
  rw [if_neg]
  simp [hb]

/-- Below the threshold, failure reports just accumulate in the counter
of an alive backend and spawn nothing. -/
theorem noteFailureTimes_below (m : Nat) (b : Backend) (_hb : b.alive = true)
    (h0 : b.consecFailures = 0) :
    ∀ k, k < m → noteFailureTimes m b k = ({ b with consecFailures := k }, 0) := by
  intro k
  induction k with
  | zero =>
    intro _
    rw [noteFailureTimes, ← h0]
  | succ j ihj =>
    intro hk
    rw [noteFailureTimes, ihj (by omega)]
    dsimp only
    have hq : noteFailure m { b with consecFailures := j } =
        ({ b with consecFailures := j + 1 }, false) := by
      simp only [noteFailure]
      rw [if_neg]
      simp only [not_and]
      intro hle
      exact absurd hle (by omega)
    rw [hq]
    simp

/-- The threshold-th consecutive failure report on a fresh alive backend
trips the breaker: the backend is marked down and exactly one cooldown
goroutine has been spawned over the whole sequence. -/
theorem noteFailureTimes_threshold (m : Nat) (b : Backend) (hb : b.alive = true)
    (h0 : b.consecFailures = 0) (hm : 1 ≤ m) :
    noteFailureTimes m b m = ({ b with alive := false, consecFailures := m }, 1) := by
  obtain ⟨j, hj⟩ : ∃ j, m = j + 1 := ⟨m - 1, by omega⟩
  subst hj
  rw [noteFailureTimes, noteFailureTimes_below (j + 1) b hb h0 j (by omega)]
  dsimp only
  have hq : noteFailure (j + 1) { b with consecFailures := j } =
      ({ b with alive := false, consecFailures := j + 1 }, true) := by
    simp only [noteFailure]
    rw [if_pos]
    exact ⟨by omega, hb⟩
  rw [hq]
  simp

/-- A dead backend stays dead under any sequence of ops that contains
no re-admission (no cooldown expiry, no 200 health probe). -/
theorem applyOps_stays_dead (m : Nat) :
    ∀ ops b, b.alive = false → (∀ op ∈ ops, isReadmitOp op = false) →
      (applyOps m ops b).alive = false := by
  intro ops
  induction ops with
  | nil => intro b hb _; exact hb
  | cons op rest ih =>
    intro b hb hops
    rw [applyOps]
    refine ih _ ?_ (fun op2 h2 => hops op2 (by simp [h2]))
    have hop := hops op (by simp)
    cases op with
    | dispatchFailure =>
      rw [applyOp, noteFailure_dead m b hb]
      exact hb
    | probe r =>
      cases r with
      | err => simp [applyOp, check, setAlive]
      | status c =>
        by_cases hc : c = 200
        · subst hc; simp [isReadmitOp] at hop
        · simp [applyOp, check, hc, setAlive]
    | cooldown => simp [isReadmitOp] at hop

/-- Claim C2: after exactly `MaxConsecFail` consecutive dispatch-failure
reports on a fresh alive backend, the backend is marked down (one
cooldown spawned); `nextAliveBackend` never returns the index of a
backend whose alive flag is false; and the flag stays false under any
further ops until a re-admission (cooldown expiry or 200 probe). -/
theorem threshold_breach_excludes :
    (∀ m b, b.alive = true → b.consecFailures = 0 → 1 ≤ m →
      noteFailureTimes m b m = ({ b with alive := false, consecFailures := m }, 1))
    ∧ (∀ lb i c, lb.backends.get? i = some c → c.alive = false →
        ∀ b, (nextAliveBackend lb).1 ≠ some (b, i))
    ∧ (∀ m ops b, b.alive = false → (∀ op ∈ ops, isReadmitOp op = false) →
        (applyOps m ops b).alive = false) := by
  refine ⟨noteFailureTimes_threshold, ?_, applyOps_stays_dead⟩
  intro lb i c hget hdead b hcontra
  have h := nextAliveAux_some lb.backends lb.backends.length lb.current b i hcontra
  have hbc : b = c := by
    have := h.1
    rw [hget] at this
    exact Option.some_inj.mp this.symm
  rw [hbc] at h
  rw [h.2.1] at hdead
  exact absurd hdead (by simp)

/-- Instantiation of the exclusion claim: three failure reports trip the
breaker on a fresh backend with the default threshold 3. -/
theorem threshold_breach_excludes_witness :
    noteFailureTimes 3 bFresh 3 = ({ bFresh with alive := false, consecFailures := 3 }, 1) :=
  threshold_breach_excludes.1 3 bFresh rfl rfl (by omega)

/-- Claim C3: when the breaker's one-shot cooldown timer fires, the
backend is unconditionally re-admitted with its failure counter reset,
whatever state interim health probes have left it in. -/
theorem cooldown_fire_readmits :
    (∀ b, cooldownFire b = { b with alive := true, consecFailures := 0 })
    ∧ (∀ b, isAlive (cooldownFire b) = true)
    ∧ (∀ m (rs : List ProbeResult) b,
        cooldownFire (applyOps m (rs.map BackendOp.probe) b) =
          { applyOps m (rs.map BackendOp.probe) b with
            alive := true, consecFailures := 0 }) :=
  ⟨fun _ => rfl, fun _ => rfl, fun _ _ _ => rfl⟩

/-- Claim C7: a failed health probe (transport error or non-200 status)
marks the backend not alive, leaves `ConsecFailures` untouched and
spawns no cooldown; a 200 probe marks it alive and resets the counter
through the shared `SetAlive` path. -/
theorem health_probe_effects (b : Backend) :
    check b .err = { b with alive := false }
    ∧ (∀ c, c ≠ 200 → check b (.status c) = { b with alive := false })
    ∧ check b (.status 200) = { b with alive := true, consecFailures := 0 }
    ∧ (∀ m r, opSchedules m (.probe r) b = false) := by
  refine ⟨rfl, ?_, rfl, fun _ _ => rfl⟩
  intro c hc
  simp [check, hc, setAlive]

/-- Instantiation of the probe-effects claim: a 503 probe answer marks
the backend down without touching its counter. -/
theorem health_probe_effects_witness :
    check bFresh (.status 503) = { bFresh with alive := false } :=
  (health_probe_effects bFresh).2.1 503 (by omega)

/-- Claim C9: both writers of `Alive = true` (the shared `SetAlive`
setter used by the health monitor and the cooldown-expiry goroutine)
reset `ConsecFailures` to 0 in the same step, so any op that flips a
backend from dead to alive leaves a zero failure counter. -/
theorem alive_write_resets_failures :
    (∀ b, setAlive b true = { b with alive := true, consecFailures := 0 })
    ∧ (∀ b, cooldownFire b = { b with alive := true, consecFailures := 0 })
    ∧ (∀ m op b, (applyOp m op b).alive = true → b.alive = false →
        (applyOp m op b).consecFailures = 0) := by
  refine ⟨fun _ => rfl, fun _ => rfl, ?_⟩
  intro m op b halive hdead
  cases op with
  | dispatchFailure =>
    rw [applyOp, noteFailure_dead m b hdead] at halive
    rw [hdead] at halive
    exact absurd halive (by simp)
  | probe r =>
    cases r with
    | err => simp [applyOp, check, setAlive] at halive
    | status c =>
      by_cases hc : c = 200
      · subst hc; simp [applyOp, check, setAlive]
      · simp [applyOp, check, hc, setAlive] at halive
  | cooldown => rfl

/-- Instantiation of the reset-on-readmission claim: firing the cooldown
on a down backend with two recorded failures zeroes the counter. -/
theorem alive_write_resets_failures_witness :
    (applyOp 3 BackendOp.cooldown bDown).consecFailures = 0 :=
  alive_write_resets_failures.2.2 3 BackendOp.cooldown bDown rfl rfl

/-- Claim C10: a failure report on an already-down backend only
increments the counter (the alive flag keeps its value `false`, no
goroutine is spawned), and any number of such reports spawn zero
cooldown timers while the flag stays `false`. -/
theorem noteFailure_on_dead_frame (m : Nat) (b : Backend) (hb : b.alive = false) :
    noteFailure m b = ({ b with consecFailures := b.consecFailures + 1 }, false)
    ∧ ∀ k, noteFailureTimes m b k =
        ({ b with consecFailures := b.consecFailures + k }, 0) := by
  refine ⟨noteFailure_dead m b hb, ?_⟩
  intro k
  induction k with
  | zero => rw [noteFailureTimes, Nat.add_zero]
  | succ j ih =>
    rw [noteFailureTimes, ih]
    dsimp only
    rw [noteFailure_dead m { b with consecFailures := b.consecFailures + j } hb]
    simp [Nat.add_assoc]

/-- Instantiation of the dead-backend frame claim: five further reports
on a down backend leave it down, add five to the counter and spawn no
timer. -/
theorem noteFailure_on_dead_frame_witness :
    noteFailureTimes 3 bDown 5 = ({ bDown with consecFailures := bDown.consecFailures + 5 }, 0) :=
  (noteFailure_on_dead_frame 3 bDown rfl).2 5

/-- Every loop iteration — including a `tried[idx]` skip — consumes one
unit of the attempt budget: forwards plus skips grow by at most the fuel
spent. -/
theorem serveLoop_budget (oracle : Nat → Outcome) :
    ∀ fuel s, (serveLoop oracle fuel s).attempts.length + (serveLoop oracle fuel s).skips
      ≤ s.attempts.length + s.skips + fuel := by
  intro fuel
  induction fuel with
  | zero => intro s; simp [serveLoop]
  | succ f ih =>
    intro s
    rw [serveLoop]
    dsimp only
    cases hsel : (nextAliveBackend s.lb).1 with
    | none => dsimp only; omega
    | some p =>
      obtain ⟨b, idx⟩ := p
      dsimp only
      by_cases ht : idx ∈ s.tried
      · rw [if_pos ht]
        have h := ih { s with lb := (nextAliveBackend s.lb).2, iters := s.iters + 1, skips := s.skips + 1 }
        dsimp only at h
        omega
      · rw [if_neg ht]
        cases horacle : oracle idx with
        | timeout =>
          dsimp only
          have h := ih { s with lb := poolNoteFailure (nextAliveBackend s.lb).2 idx, tried := idx :: s.tried, attempts := s.attempts ++ [idx], iters := s.iters + 1 }
          dsimp only at h
          simp only [List.length_append, List.length_cons, List.length_nil] at h
          omega
        | response r =>
          dsimp only
          by_cases hst : 500 ≤ r.status
          · rw [if_pos hst]
            have h := ih { s with lb := poolNoteFailure (nextAliveBackend s.lb).2 idx, tried := idx :: s.tried, output := s.output ++ [r], attempts := s.attempts ++ [idx], recCode := r.status, iters := s.iters + 1 }
            dsimp only at h
            simp only [List.length_append, List.length_cons, List.length_nil] at h
            omega
          · rw [if_neg hst]
            dsimp only
            simp only [List.length_append, List.length_cons, List.length_nil]
            omega

/-- The attempt loop never forwards to the same backend index twice:
an index enters `attempts` only together with its insertion into the
`tried` map, and indices in `tried` are skipped. -/
theorem serveLoop_nodup (oracle : Nat → Outcome) :
    ∀ fuel s, s.attempts.Nodup → (∀ i ∈ s.attempts, i ∈ s.tried) →
      (serveLoop oracle fuel s).attempts.Nodup
      ∧ ∀ i ∈ (serveLoop oracle fuel s).attempts, i ∈ (serveLoop oracle fuel s).tried := by
  intro fuel
  induction fuel with
  | zero => intro s h1 h2; simpa [serveLoop] using ⟨h1, h2⟩
  | succ f ih =>
    intro s h1 h2
    rw [serveLoop]
    dsimp only
    cases hsel : (nextAliveBackend s.lb).1 with
    | none => exact ⟨h1, h2⟩
    | some p =>
      obtain ⟨b, idx⟩ := p
      dsimp only
      by_cases ht : idx ∈ s.tried
      · rw [if_pos ht]
        exact ih { s with lb := (nextAliveBackend s.lb).2, iters := s.iters + 1, skips := s.skips + 1 } h1 h2
      · rw [if_neg ht]
        have hnotin : idx ∉ s.attempts := fun hmem => ht (h2 idx hmem)
        have h1n : (s.attempts ++ [idx]).Nodup := by
          simp [List.nodup_append, hnotin, h1]
        have h2n : ∀ i ∈ s.attempts ++ [idx], i ∈ idx :: s.tried := by
          intro i hi
          rcases List.mem_append.mp hi with hi2 | hi2
          · exact List.mem_cons_of_mem idx (h2 i hi2)
          · simp at hi2
            simp [hi2]
        cases horacle : oracle idx with
        | timeout =>
          dsimp only
          exact ih { s with lb := poolNoteFailure (nextAliveBackend s.lb).2 idx, tried := idx :: s.tried, attempts := s.attempts ++ [idx], iters := s.iters + 1 } h1n h2n
        | response r =>
          dsimp only
          by_cases hst : 500 ≤ r.status
          · rw [if_pos hst]
            exact ih { s with lb := poolNoteFailure (nextAliveBackend s.lb).2 idx, tried := idx :: s.tried, output := s.output ++ [r], attempts := s.attempts ++ [idx], recCode := r.status, iters := s.iters + 1 } h1n h2n
          · rw [if_neg hst]
            exact ⟨h1n, h2n⟩

/-- The recorder writes through: at every point of the loop, the data
already committed to the client is exactly the response of every
forwarded attempt that produced one, in order. -/
theorem serveLoop_output (oracle : Nat → Outcome) :
    ∀ fuel s, s.output = s.attempts.filterMap (attemptWrites oracle) →
      (serveLoop oracle fuel s).output =
        (serveLoop oracle fuel s).attempts.filterMap (attemptWrites oracle) := by
  intro fuel
  induction fuel with
  | zero => intro s h; simpa [serveLoop] using h
  | succ f ih =>
    intro s h
    rw [serveLoop]
    dsimp only
    cases hsel : (nextAliveBackend s.lb).1 with
    | none => exact h
    | some p =>
      obtain ⟨b, idx⟩ := p
      dsimp only
      by_cases ht : idx ∈ s.tried
      · rw [if_pos ht]
        exact ih { s with lb := (nextAliveBackend s.lb).2, iters := s.iters + 1, skips := s.skips + 1 } h
      · rw [if_neg ht]
        cases horacle : oracle idx with
        | timeout =>
          dsimp only
          refine ih _ ?_
          dsimp only
          rw [List.filterMap_append, h]
          simp [attemptWrites, horacle]
        | response r =>
          dsimp only
          have hout : s.output ++ [r] = (s.attempts ++ [idx]).filterMap (attemptWrites oracle) := by
            rw [List.filterMap_append, h]
            simp [attemptWrites, horacle]
          by_cases hst : 500 ≤ r.status
          · rw [if_pos hst]
            exact ih _ hout
          · rw [if_neg hst]
            exact hout

/-- Claim C4: with every backend marked not-alive, the first selection
fails, the loop stops after that single iteration without any
forwarding attempt, and the client receives only the 503
`no upstream available` response. -/
theorem full_outage_rejected (oracle : Nat → Outcome) (lb : LoadBalancer)
    (h : ∀ b ∈ lb.backends, b.alive = false) :
    (serveHTTP oracle lb).attempts = []
    ∧ (serveHTTP oracle lb).output = [⟨503, "no upstream available"⟩]
    ∧ (serveHTTP oracle lb).lastErrSet = true
    ∧ (serveHTTP oracle lb).iters = 1 := by
  have hsel : (nextAliveBackend lb).1 = none :=
    nextAliveAux_none_of_dead lb.backends h lb.backends.length lb.current
  simp only [serveHTTP]
  rw [serveLoop]
  dsimp only
  rw [hsel]
  dsimp only
  rw [if_pos rfl]
  simp

/-- Instantiation of the full-outage claim on a concrete two-backend
dead pool. -/
theorem full_outage_rejected_witness :
    (serveHTTP oracleDead lbOutage).attempts = []
    ∧ (serveHTTP oracleDead lbOutage).output = [⟨503, "no upstream available"⟩]
    ∧ (serveHTTP oracleDead lbOutage).lastErrSet = true
    ∧ (serveHTTP oracleDead lbOutage).iters = 1 :=
  full_outage_rejected oracleDead lbOutage (by decide)

/-- Claim C5 (counterexample to the claim as stated): two alive
backends, budget `MaxRetries + 1 = 3`, every attempt answering 500.
The third loop iteration selects backend 1 again, hits the
`tried[idx]` skip, and Go's `continue` still runs `attempt++`: the run
ends after exactly 3 iterations with only 2 forwards, no selection
error and both backends still alive — the skipped iteration consumed
the last attempt of the budget instead of being free. -/
theorem skip_budget_counterexample :
    (serveHTTP oracle500 lbSkip).skips = 1
    ∧ (serveHTTP oracle500 lbSkip).attempts = [1, 0]
    ∧ (serveHTTP oracle500 lbSkip).iters = lbSkip.maxRetries + 1
    ∧ (serveHTTP oracle500 lbSkip).lastErrSet = false
    ∧ (serveHTTP oracle500 lbSkip).recCode = 500
    ∧ (serveHTTP oracle500 lbSkip).lb.backends.map Backend.alive = [true, true] := by
  decide

/-- Claim C5 (amended): a duplicate selection is skipped — nothing is
forwarded and the tried-set is unchanged — but the iteration still
consumes one attempt of the `MaxRetries + 1` budget; an index enters
the tried-set exactly when it is selected for forwarding, so forwarded
indices are distinct and forwards plus skips never exceed the budget. -/
theorem skip_still_consumes_budget (oracle : Nat → Outcome) (lb : LoadBalancer) :
    (serveHTTP oracle lb).attempts.length + (serveHTTP oracle lb).skips ≤ lb.maxRetries + 1
    ∧ (serveHTTP oracle lb).attempts.Nodup
    ∧ ∀ i ∈ (serveHTTP oracle lb).attempts, i ∈ (serveHTTP oracle lb).tried := by
  have hb := serveLoop_budget oracle (lb.maxRetries + 1)
    ⟨lb, [], [], [], 200, false, 0, 0⟩
  have hn := serveLoop_nodup oracle (lb.maxRetries + 1)
    ⟨lb, [], [], [], 200, false, 0, 0⟩ (by simp) (by simp)
  simp only [serveHTTP]
  simp only [List.length_nil, Nat.zero_add] at hb
  split
  · dsimp only
    exact ⟨by omega, hn.1, hn.2⟩
  · exact ⟨by omega, hn.1, hn.2⟩

/-- Claim C6: within one request the dispatcher forwards to pairwise
distinct backend indices, at most `MaxRetries + 1` of them. -/
theorem no_repeat_within_request (oracle : Nat → Outcome) (lb : LoadBalancer)
    (_h : lb.maxRetries < lb.backends.length) :
    (serveHTTP oracle lb).attempts.Nodup
    ∧ (serveHTTP oracle lb).attempts.length ≤ lb.maxRetries + 1 := by
  have hb := serveLoop_budget oracle (lb.maxRetries + 1)
    ⟨lb, [], [], [], 200, false, 0, 0⟩
  have hn := serveLoop_nodup oracle (lb.maxRetries + 1)
    ⟨lb, [], [], [], 200, false, 0, 0⟩ (by simp) (by simp)
  simp only [serveHTTP]
  simp only [List.length_nil, Nat.zero_add] at hb
  split
  · dsimp only
    exact ⟨hn.1, by omega⟩
  · exact ⟨hn.1, by omega⟩

/-- Instantiation of the no-repeat claim: pool of 2, budget 2, a failing
then a succeeding attempt. -/
theorem no_repeat_within_request_witness :
    (serveHTTP oracleMix lbStream).attempts.Nodup
    ∧ (serveHTTP oracleMix lbStream).attempts.length ≤ lbStream.maxRetries + 1 :=
  no_repeat_within_request oracleMix lbStream (by decide)

/-- Claim C8 (counterexample to the claim as stated): backend 1 answers
500 with body `err1`, the retry forwards to backend 0 which answers
200 `ok`.  The client connection receives both responses in order —
the 500 response of the retried attempt was committed before the retry
decision, so the output is not just the final accepted response. -/
theorem streams_before_retry_counterexample :
    (serveHTTP oracleMix lbStream).output = [⟨500, "err1"⟩, ⟨200, "ok"⟩]
    ∧ (serveHTTP oracleMix lbStream).attempts = [1, 0]
    ∧ (serveHTTP oracleMix lbStream).recCode = 200
    ∧ (serveHTTP oracleMix lbStream).output ≠ [⟨200, "ok"⟩] := by
  decide

/-- Claim C8 (amended): the dispatcher streams every attempt's response
directly to the client through the write-through `statusRecorder`
(which only records the status code): the client output is the
concatenation of the responses of all forwarded attempts that produced
one, followed by the 503 error exactly when selection failed. -/
theorem response_streaming_shape (oracle : Nat → Outcome) (lb : LoadBalancer) :
    ((serveHTTP oracle lb).lastErrSet = false →
      (serveHTTP oracle lb).output =
        (serveHTTP oracle lb).attempts.filterMap (attemptWrites oracle))
    ∧ ((serveHTTP oracle lb).lastErrSet = true →
      (serveHTTP oracle lb).output =
        (serveHTTP oracle lb).attempts.filterMap (attemptWrites oracle)
          ++ [⟨503, "no upstream available"⟩]) := by
  have h := serveLoop_output oracle (lb.maxRetries + 1)
    ⟨lb, [], [], [], 200, false, 0, 0⟩ (by simp)
  simp only [serveHTTP]
  by_cases hE : (serveLoop oracle (lb.maxRetries + 1)
      ⟨lb, [], [], [], 200, false, 0, 0⟩).lastErrSet = true
  · rw [if_pos hE]
    dsimp only
    constructor
    · intro hcontra
      rw [hcontra] at hE
      exact absurd hE (by simp)
    · intro _
      rw [h]
  · rw [if_neg hE]
    constructor
    · intro _
      exact h
    · intro hcontra
      exact absurd hcontra hE

/-- Instantiation of the streaming shape on the concrete mixed run: no
selection error occurred, and the client output is exactly the writes
of the two forwarded attempts. -/
theorem response_streaming_shape_witness :
    (serveHTTP oracleMix lbStream).output =
      (serveHTTP oracleMix lbStream).attempts.filterMap (attemptWrites oracleMix) :=
  (response_streaming_shape oracleMix lbStream).1 (by decide)
